import Mathlib

/-!
Verification of the radix-trie path matcher in `internal/radical/radical.go`
of the fernet router. The Go `Node[T]` struct, its `Add` method and its
`Value` method are embedded as executable Lean definitions; the Go map
`children map[string]*Node[T]` is modelled as an association list, Go's
panics in `Add` as an explicit error component, and Go's zero value of `T`
as `(default : T)` from an `Inhabited` instance.
-/

namespace Radical

/-- One vertex of the trie, mirroring the Go struct
`Node[T] { segment string; value T; isSet bool; children map[string]*Node[T] }`. -/
inductive Node (T : Type) : Type where
  | mk (segment : String) (value : T) (isSet : Bool)
       (children : List (String × Node T)) : Node T

def Node.segment {T : Type} : Node T → String
  | .mk s _ _ _ => s

def Node.value {T : Type} : Node T → T
  | .mk _ v _ _ => v

def Node.isSet {T : Type} : Node T → Bool
  | .mk _ _ b _ => b

def Node.children {T : Type} : Node T → List (String × Node T)
  | .mk _ _ _ c => c

/-- Go map read `children[key]`: first binding for the key, if any. -/
def lookupChild {T : Type} : List (String × Node T) → String → Option (Node T)
  | [], _ => none
  | (k, c) :: rest, key => if k = key then some c else lookupChild rest key

/-- Go map write `children[key] = node`: replace the binding if the key is
present, otherwise append it. -/
def insertChild {T : Type} : List (String × Node T) → String → Node T →
    List (String × Node T)
  | [], key, node => [(key, node)]
  | (k, c) :: rest, key, node =>
      if k = key then (key, node) :: rest
      else (k, c) :: insertChild rest key node

/-- Go `strings.HasPrefix s (String.singleton c)` for a one-byte ASCII
marker: true iff the first character of `s` is `c`. -/
def headIs (c : Char) (s : String) : Bool :=
  match s.data with
  | [] => false
  | a :: _ => a = c

/-- A node freshly allocated by `Add` (`&Node[T]{segment: seg, children: …}`):
its `value` is Go's zero value and `isSet` is false. -/
def freshNode {T : Type} [Inhabited T] (seg : String) : Node T :=
  .mk seg default false []

/-- Go `New[T]()`: the empty root node. -/
def Node.new {T : Type} [Inhabited T] : Node T := freshNode ""

/-- The three `panic` sites of Go `Node.Add`, as data. -/
inductive AddError : Type where
  | wildcardNotLast : AddError
  | wildcardReuse : AddError
  | duplicateRoute : AddError
deriving DecidableEq, Repr

/-- The panic message of each `Add` failure; the duplicate-route message
interpolates the full segment list the way Go's `%v` prints a slice. -/
def AddError.message (segments : List String) : AddError → String
  | .wildcardNotLast => "wildcard segments must be the last segment in a path"
  | .wildcardReuse => "wildcard segments can only be used once in a path"
  | .duplicateRoute =>
      "duplicate route detected: [" ++ String.intercalate " " segments ++ "]"

/-- Go `Node.Add`, segment loop plus the terminal store. Returns the tree
as left by the call together with the panic raised, if any: a Go panic
aborts the call but the map writes already performed persist, so on error
the partially extended tree is returned, not the original one.
Branches, in the source's order, for each segment:
* marker `:` — descend into (creating if absent) the shared `":named"` child;
* marker `*` — panic `wildcardNotLast` unless this is the last segment,
  panic `wildcardReuse` if a `"*"` child exists, else create the `"*"`
  child and `break` (the terminal store then lands on that fresh child);
* otherwise — descend into (creating if absent) the literal child keyed by
  the exact segment text.
After the loop: panic `duplicateRoute` if the node reached is already
`isSet`, else store `value` there and set `isSet`. -/
def Node.Add {T : Type} [Inhabited T] :
    Node T → List String → T → Node T × Option AddError
  | n, [], v =>
      if n.isSet then (n, some .duplicateRoute)
      else (.mk n.segment v true n.children, none)
  | n, seg :: rest, v =>
      if headIs ':' seg then
        let child := (lookupChild n.children ":named").getD (freshNode ":named")
        let r := Node.Add child rest v
        (.mk n.segment n.value n.isSet (insertChild n.children ":named" r.1), r.2)
      else if headIs '*' seg then
        if rest.isEmpty then
          if (lookupChild n.children "*").isSome then (n, some .wildcardReuse)
          else
            (.mk n.segment n.value n.isSet
              (insertChild n.children "*" (.mk "*" v true [])), none)
        else (n, some .wildcardNotLast)
      else
        let child := (lookupChild n.children seg).getD (freshNode seg)
        let r := Node.Add child rest v
        (.mk n.segment n.value n.isSet (insertChild n.children seg r.1), r.2)

/-- The loop of Go `Node.Value`: `lw` is the `lastWildcard` variable
(`none` at entry). At each consumed segment the current node's `"*"` child,
if any, overwrites `lw`; then the exact literal child is tried, then the
`":named"` child; if neither exists the remembered wildcard's value is
returned as a match, or a no-match with the zero value. After the loop the
reached node's value is returned if `isSet`, else the remembered wildcard's
value, else a no-match carrying the reached node's (zero) `value` field. -/
def valueLoop {T : Type} [Inhabited T] :
    Option (Node T) → Node T → List String → Bool × T
  | lw, n, [] =>
      if n.isSet then (true, n.value)
      else
        match lw with
        | some w => (true, w.value)
        | none => (false, n.value)
  | lw, n, seg :: rest =>
      let lw2 := match lookupChild n.children "*" with
        | some w => some w
        | none => lw
      match lookupChild n.children seg with
      | some child => valueLoop lw2 child rest
      | none =>
        match lookupChild n.children ":named" with
        | some child => valueLoop lw2 child rest
        | none =>
          match lw2 with
          | some w => (true, w.value)
          | none => (false, default)

/-- Go `Node.Value`: lookup starting with no wildcard remembered. -/
def Node.Value {T : Type} [Inhabited T] (n : Node T) (segments : List String) :
    Bool × T :=
  valueLoop none n segments


/-! ### Derived descriptions of the walk, used to state the claims -/

/-- One step of the literal/dynamic descent of `Value`: the exact literal
child if present, else the shared `":named"` child. -/
def walkStep {T : Type} (n : Node T) (seg : String) : Option (Node T) :=
  match lookupChild n.children seg with
  | some c => some c
  | none => lookupChild n.children ":named"

/-- The walked path of `Value`: the nodes at which the loop consumes (or,
at a dead end, fails to consume) an input segment. -/
def walkPath {T : Type} : Node T → List String → List (Node T)
  | _, [] => []
  | n, seg :: rest =>
      match walkStep n seg with
      | some c => n :: walkPath c rest
      | none => [n]

/-- Whether the literal/dynamic descent dead-ends: at some input segment
the current node has neither a matching literal child nor a `":named"`
child. -/
def deadEnds {T : Type} : Node T → List String → Bool
  | _, [] => false
  | n, seg :: rest =>
      match walkStep n seg with
      | some c => deadEnds c rest
      | none => true

/-- Fold remembering the wildcard child of the deepest node seen so far
that has one, starting from a previously remembered wildcard. -/
def wildcardFold {T : Type} (lw : Option (Node T)) (path : List (Node T)) :
    Option (Node T) :=
  path.foldl
    (fun acc m =>
      match lookupChild m.children "*" with
      | some w => some w
      | none => acc)
    lw

/-- The wildcard child of the deepest node on a path that has a wildcard
child, if any node does. -/
def deepestWildcard {T : Type} (path : List (Node T)) : Option (Node T) :=
  wildcardFold none path

/-- The node at which the walk of `Add` terminates, mirroring the loop of
`Node.Add` without performing its writes: `none` when a wildcard panic
aborts the walk; for a final wildcard segment with no existing `"*"` child
the terminal node is the freshly created child (not yet `isSet`). -/
def addWalk {T : Type} [Inhabited T] : Node T → List String → Option (Node T)
  | n, [] => some n
  | n, seg :: rest =>
      if headIs ':' seg then
        addWalk ((lookupChild n.children ":named").getD (freshNode ":named")) rest
      else if headIs '*' seg then
        if rest.isEmpty then
          if (lookupChild n.children "*").isSome then none
          else some (freshNode "*")
        else none
      else
        addWalk ((lookupChild n.children seg).getD (freshNode seg)) rest

/-- Nodes whose unset vertices all carry the zero value: Go guarantees this
because `value` is only assigned together with `isSet = true`. -/
inductive Clean {T : Type} [Inhabited T] : Node T → Prop where
  | mk (seg : String) (v : T) (b : Bool) (ch : List (String × Node T)) :
      (b = false → v = default) → (∀ p ∈ ch, Clean p.2) →
      Clean (.mk seg v b ch)

/-- Trees reachable from `New` by successful `Add` calls. -/
inductive Built {T : Type} [Inhabited T] : Node T → Prop where
  | new : Built (Node.new : Node T)
  | add (n : Node T) (segs : List String) (v : T) : Built n →
      (Node.Add n segs v).2 = none → Built (Node.Add n segs v).1

/-! ### Concrete tries used in the examples -/

/-- The trie of the precedence example: `Add(["GET","foo","*"], 1)`,
`Add(["GET","foo","bar"], 2)`, `Add(["GET","foo"], 3)` into a fresh trie. -/
def exTrie1 : Node Int := ((Node.new : Node Int).Add ["GET", "foo", "*"] 1).1

def exTrie2 : Node Int := (exTrie1.Add ["GET", "foo", "bar"] 2).1

def exTrie : Node Int := (exTrie2.Add ["GET", "foo"] 3).1

/-- The trie of the greedy-descent example: `Add(["a","b","c"], 1)` and
`Add(["a",":x","d"], 2)` into a fresh trie. -/
def greedyTrie1 : Node Int := ((Node.new : Node Int).Add ["a", "b", "c"] 1).1

def greedyTrie : Node Int := (greedyTrie1.Add ["a", ":x", "d"] 2).1

/-- A trie with a single literal registration, for the duplicate example. -/
def dupTrie : Node Int := ((Node.new : Node Int).Add ["a", "b"] 1).1

/-- A trie with a single registration, for the miss example. -/
def missTrie : Node Int := ((Node.new : Node Int).Add ["a"] 1).1

/-- The trie after `Add(["*foo"], 1)` into a fresh trie. -/
def starFooTrie : Node Int := ((Node.new : Node Int).Add ["*foo"] 1).1

/-- The trie of the non-atomicity example before the failing call:
`Add(["a",":x","b"], 5)` into a fresh trie. -/
def atomTrie : Node Int := ((Node.new : Node Int).Add ["a", ":x", "b"] 5).1

/-- The tree left behind by the failing call `Add(["a","q","*","z"], 7)`. -/
def atomTrieAfter : Node Int := (atomTrie.Add ["a", "q", "*", "z"] 7).1

/-! ### Helper lemmas -/

theorem Node.eta {T : Type} (n : Node T) :
    Node.mk n.segment n.value n.isSet n.children = n := by
  cases n
  rfl

theorem lookupChild_mem {T : Type} {l : List (String × Node T)} {k : String}
    {c : Node T} (h : lookupChild l k = some c) : (k, c) ∈ l := by
  induction l with
  | nil => simp [lookupChild] at h
  | cons p rest ih =>
      obtain ⟨k', c'⟩ := p
      by_cases hk : k' = k
      · subst hk
        simp [lookupChild] at h
        subst h
        exact List.mem_cons_self _ _
      · simp [lookupChild, hk] at h
        exact List.mem_cons_of_mem _ (ih h)

theorem insertChild_lookup_self {T : Type} {l : List (String × Node T)}
    {k : String} {c : Node T} (h : lookupChild l k = some c) :
    insertChild l k c = l := by
  induction l with
  | nil => simp [lookupChild] at h
  | cons p rest ih =>
      obtain ⟨k', c'⟩ := p
      by_cases hk : k' = k
      · subst hk
        simp [lookupChild] at h
        simp [insertChild, h]
      · simp [lookupChild, hk] at h
        simp [insertChild, hk, ih h]

theorem lookupChild_insertChild_self {T : Type} (l : List (String × Node T))
    (k : String) (c : Node T) : lookupChild (insertChild l k c) k = some c := by
  induction l with
  | nil => simp [insertChild, lookupChild]
  | cons p rest ih =>
      obtain ⟨k', c'⟩ := p
      by_cases hk : k' = k
      · simp [insertChild, lookupChild, hk]
      · simp [insertChild, lookupChild, hk, ih]

theorem mem_insertChild {T : Type} {l : List (String × Node T)} {k : String}
    {c : Node T} {p : String × Node T} (h : p ∈ insertChild l k c) :
    p = (k, c) ∨ p ∈ l := by
  induction l with
  | nil =>
      simp [insertChild] at h
      exact Or.inl h
  | cons q rest ih =>
      obtain ⟨k', c'⟩ := q
      by_cases hk : k' = k
      · simp [insertChild, hk] at h
        rcases h with h | h
        · exact Or.inl h
        · exact Or.inr (List.mem_cons_of_mem _ h)
      · simp [insertChild, hk] at h
        rcases h with h | h
        · exact Or.inr (by simp [h])
        · rcases ih h with h' | h'
          · exact Or.inl h'
          · exact Or.inr (List.mem_cons_of_mem _ h')

theorem headIs_colon_star {s : String} (h : headIs ':' s = true) :
    headIs '*' s = false := by
  unfold headIs at h ⊢
  cases hd : s.data with
  | nil => rfl
  | cons a rest =>
      rw [hd] at h
      simp at h
      simp [h]

theorem headIs_star_of_lit : headIs '*' "*" = true := by decide

theorem ne_star_of_not_headIs {s : String} (h : headIs '*' s = false) :
    s ≠ "*" := by
  intro he
  rw [he] at h
  exact absurd h (by decide)

@[simp] theorem segment_mk {T : Type} (s : String) (v : T) (b : Bool)
    (ch : List (String × Node T)) : (Node.mk s v b ch).segment = s := rfl

@[simp] theorem value_mk {T : Type} (s : String) (v : T) (b : Bool)
    (ch : List (String × Node T)) : (Node.mk s v b ch).value = v := rfl

@[simp] theorem isSet_mk {T : Type} (s : String) (v : T) (b : Bool)
    (ch : List (String × Node T)) : (Node.mk s v b ch).isSet = b := rfl

@[simp] theorem children_mk {T : Type} (s : String) (v : T) (b : Bool)
    (ch : List (String × Node T)) : (Node.mk s v b ch).children = ch := rfl

theorem clean_fresh {T : Type} [Inhabited T] (seg : String) :
    Clean (freshNode seg : Node T) :=
  Clean.mk seg default false [] (fun _ => rfl) (by simp)

theorem Clean.value_default {T : Type} [Inhabited T] {n : Node T}
    (h : Clean n) (hb : n.isSet = false) : n.value = default := by
  cases h with
  | mk seg v b ch h1 h2 => exact h1 (by simpa using hb)

theorem Clean.child {T : Type} [Inhabited T] {n : Node T} (h : Clean n) :
    ∀ p ∈ n.children, Clean p.2 := by
  cases h with
  | mk seg v b ch h1 h2 => simpa using h2

theorem Clean.of_lookup {T : Type} [Inhabited T] {n : Node T} {k : String}
    {c : Node T} (h : Clean n) (hl : lookupChild n.children k = some c) :
    Clean c :=
  h.child (k, c) (lookupChild_mem hl)

theorem clean_insert {T : Type} [Inhabited T] {l : List (String × Node T)}
    {k : String} {c : Node T} (hl : ∀ p ∈ l, Clean p.2) (hc : Clean c) :
    ∀ p ∈ insertChild l k c, Clean p.2 := by
  intro p hp
  rcases mem_insertChild hp with h | h
  · subst h
    exact hc
  · exact hl p h

theorem clean_add {T : Type} [Inhabited T] (segs : List String) :
    ∀ (n : Node T), Clean n → ∀ v : T, Clean (Node.Add n segs v).1 := by
  induction segs with
  | nil =>
      intro n hn v
      cases hn with
      | mk sg w b ch h1 h2 =>
          cases b with
          | true =>
              simp only [Node.Add, isSet_mk, if_true]
              exact Clean.mk _ _ _ _ h1 h2
          | false =>
              simp only [Node.Add, isSet_mk, Bool.false_eq_true, if_false]
              exact Clean.mk _ _ _ _ (fun h => nomatch h) h2
  | cons seg rest ih =>
      intro n hn v
      cases hn with
      | mk sg w b ch h1 h2 =>
          by_cases hc : headIs ':' seg = true
          · simp only [Node.Add, hc, if_true, children_mk]
            refine Clean.mk _ _ _ _ h1 (clean_insert (by simpa using h2) ?_)
            cases hl : lookupChild ch ":named" with
            | none => exact ih _ (by simpa [hl] using clean_fresh ":named") v
            | some c =>
                refine ih _ ?_ v
                simpa [hl] using h2 (":named", c) (lookupChild_mem (by simpa using hl))
          · by_cases hs : headIs '*' seg = true
            · by_cases hr : rest.isEmpty
              · by_cases hw : (lookupChild ch "*").isSome
                · simpa only [Node.Add, hc, hs, hr, hw, if_true, if_false,
                    children_mk] using Clean.mk _ _ _ _ h1 h2
                · simp only [Node.Add, hc, hs, hr, hw, if_true, if_false,
                    children_mk]
                  refine Clean.mk _ _ _ _ h1
                    (clean_insert (by simpa using h2) ?_)
                  exact Clean.mk _ _ _ _ (fun h => nomatch h) (by simp)
              · simpa only [Node.Add, hc, hs, hr, if_true, if_false] using
                  Clean.mk _ _ _ _ h1 h2
            · simp only [Node.Add, hc, hs, if_false, children_mk]
              refine Clean.mk _ _ _ _ h1 (clean_insert (by simpa using h2) ?_)
              cases hl : lookupChild ch seg with
              | none => exact ih _ (by simpa [hl] using clean_fresh seg) v
              | some c =>
                  refine ih _ ?_ v
                  simpa [hl] using h2 (seg, c) (lookupChild_mem (by simpa using hl))

theorem built_clean {T : Type} [Inhabited T] {n : Node T} (h : Built n) :
    Clean n := by
  induction h with
  | new => exact clean_fresh ""
  | add n segs v _ _ ih => exact clean_add segs n ih v

theorem clean_valueLoop {T : Type} [Inhabited T] (segs : List String) :
    ∀ (n : Node T) (lw : Option (Node T)), Clean n →
      (valueLoop lw n segs).1 = false → (valueLoop lw n segs).2 = default := by
  induction segs with
  | nil =>
      intro n lw hn hf
      by_cases hb : n.isSet = true
      · simp [valueLoop, hb] at hf
      · cases lw with
        | some w => simp [valueLoop, hb] at hf
        | none =>
            simp only [valueLoop, hb, if_false]
            exact hn.value_default (by simpa using hb)
  | cons seg rest ih =>
      intro n lw hn hf
      simp only [valueLoop] at hf ⊢
      cases hlit : lookupChild n.children seg with
      | some c =>
          simp only [hlit] at hf ⊢
          exact ih c _ (hn.of_lookup hlit) hf
      | none =>
          simp only [hlit] at hf ⊢
          cases hnm : lookupChild n.children ":named" with
          | some c =>
              simp only [hnm] at hf ⊢
              exact ih c _ (hn.of_lookup hnm) hf
          | none =>
              simp only [hnm] at hf ⊢
              cases hw : lookupChild n.children "*" with
              | some w =>
                  simp only [hw] at hf
                  cases lw <;> simp at hf
              | none =>
                  simp only [hw] at hf ⊢
                  cases lw with
                  | some w => simp at hf
                  | none => rfl

theorem valueLoop_deadEnd {T : Type} [Inhabited T] (segs : List String) :
    ∀ (n : Node T) (lw : Option (Node T)), deadEnds n segs = true →
      valueLoop lw n segs =
        match wildcardFold lw (walkPath n segs) with
        | some w => (true, w.value)
        | none => (false, default) := by
  induction segs with
  | nil =>
      intro n lw h
      simp [deadEnds] at h
  | cons seg rest ih =>
      intro n lw h
      cases hw : lookupChild n.children "*" with
      | some w =>
          cases hlit : lookupChild n.children seg with
          | some c =>
              have hstep : walkStep n seg = some c := by simp [walkStep, hlit]
              simp only [deadEnds, hstep] at h
              simp only [valueLoop, hlit, hw, walkPath, hstep, wildcardFold,
                List.foldl_cons]
              exact ih c (some w) h
          | none =>
              cases hnm : lookupChild n.children ":named" with
              | some c =>
                  have hstep : walkStep n seg = some c := by
                    simp [walkStep, hlit, hnm]
                  simp only [deadEnds, hstep] at h
                  simp only [valueLoop, hlit, hnm, hw, walkPath, hstep,
                    wildcardFold, List.foldl_cons]
                  exact ih c (some w) h
              | none =>
                  have hstep : walkStep n seg = none := by
                    simp [walkStep, hlit, hnm]
                  simp only [valueLoop, hlit, hnm, hw, walkPath, hstep,
                    wildcardFold, List.foldl_cons, List.foldl_nil]
      | none =>
          cases hlit : lookupChild n.children seg with
          | some c =>
              have hstep : walkStep n seg = some c := by simp [walkStep, hlit]
              simp only [deadEnds, hstep] at h
              simp only [valueLoop, hlit, hw, walkPath, hstep, wildcardFold,
                List.foldl_cons]
              exact ih c lw h
          | none =>
              cases hnm : lookupChild n.children ":named" with
              | some c =>
                  have hstep : walkStep n seg = some c := by
                    simp [walkStep, hlit, hnm]
                  simp only [deadEnds, hstep] at h
                  simp only [valueLoop, hlit, hnm, hw, walkPath, hstep,
                    wildcardFold, List.foldl_cons]
                  exact ih c lw h
              | none =>
                  have hstep : walkStep n seg = none := by
                    simp [walkStep, hlit, hnm]
                  simp only [valueLoop, hlit, hnm, hw, walkPath, hstep,
                    wildcardFold, List.foldl_cons, List.foldl_nil]

theorem addWalk_fresh {T : Type} [Inhabited T] (rest : List String) :
    ∀ (seg : String) (m : Node T),
      addWalk (freshNode seg) rest = some m → m.isSet = false := by
  induction rest with
  | nil =>
      intro seg m h
      simp [addWalk] at h
      subst h
      rfl
  | cons s rs ih =>
      intro seg m h
      by_cases hc : headIs ':' s = true
      · simp only [addWalk, hc, if_true, freshNode, children_mk, lookupChild,
          Option.getD_none] at h
        exact ih ":named" m h
      · by_cases hs : headIs '*' s = true
        · by_cases hr : rs.isEmpty
          · simp only [addWalk, hc, hs, hr, if_true, if_false, freshNode,
              children_mk, lookupChild, Option.isSome_none,
              Bool.false_eq_true, Option.some.injEq] at h
            subst h
            rfl
          · simp [addWalk, hc, hs, hr] at h
        · simp only [addWalk, hc, hs, if_false, freshNode, children_mk,
            lookupChild, Option.getD_none] at h
          exact ih s m h

theorem add_duplicate_of_walk {T : Type} [Inhabited T] (segs : List String) :
    ∀ (n m : Node T) (v : T), addWalk n segs = some m → m.isSet = true →
      Node.Add n segs v = (n, some AddError.duplicateRoute) := by
  induction segs with
  | nil =>
      intro n m v h hset
      simp [addWalk] at h
      subst h
      simp [Node.Add, hset]
  | cons seg rest ih =>
      intro n m v h hset
      by_cases hc : headIs ':' seg = true
      · simp only [addWalk, hc, if_true] at h
        cases hl : lookupChild n.children ":named" with
        | none =>
            rw [hl] at h
            simp only [Option.getD_none] at h
            exact absurd hset (by simp [addWalk_fresh rest ":named" m h])
        | some c =>
            rw [hl] at h
            simp only [Option.getD_some] at h
            have hr := ih c m v h hset
            simp only [Node.Add, hc, if_true, hl, Option.getD_some, hr,
              insertChild_lookup_self hl, Node.eta]
      · by_cases hs : headIs '*' seg = true
        · simp only [addWalk, hc, hs, if_true, if_false] at h
          by_cases hre : rest.isEmpty
          · by_cases hw : (lookupChild n.children "*").isSome
            · simp [hre, hw] at h
            · simp only [hre, hw, if_true, if_false, Bool.false_eq_true,
                Option.some.injEq] at h
              subst h
              simp [freshNode] at hset
          · simp [hre] at h
        · simp only [addWalk, hc, hs, if_false] at h
          cases hl : lookupChild n.children seg with
          | none =>
              rw [hl] at h
              simp only [Option.getD_none] at h
              exact absurd hset (by simp [addWalk_fresh rest seg m h])
          | some c =>
              rw [hl] at h
              simp only [Option.getD_some] at h
              have hr := ih c m v h hset
              simp only [Node.Add, hc, hs, Bool.false_eq_true, if_false, hl,
                Option.getD_some, hr, insertChild_lookup_self hl, Node.eta]

theorem add_star_tail {T : Type} [Inhabited T] (v : T) :
    ∀ (s : List String), (∀ x ∈ s, headIs '*' x = false) → ∀ seg0 : String,
      (Node.Add (freshNode seg0 : Node T) (s ++ ["*"]) v).2 = none ∧
      valueLoop none (Node.Add (freshNode seg0 : Node T) (s ++ ["*"]) v).1 s =
        (false, default) ∧
      ∀ r : List String, r ≠ [] →
        valueLoop none (Node.Add (freshNode seg0 : Node T) (s ++ ["*"]) v).1
          (s ++ r) = (true, v) := by
  intro s
  induction s with
  | nil =>
      intro _ seg0
      refine ⟨rfl, rfl, ?_⟩
      intro r hr
      cases r with
      | nil => exact absurd rfl hr
      | cons r0 rs =>
          show valueLoop none
            (Node.mk seg0 default false [("*", Node.mk "*" v true [])])
            (r0 :: rs) = (true, v)
          by_cases h0 : ("*" : String) = r0
          · subst h0
            cases rs with
            | nil => simp [valueLoop, lookupChild]
            | cons s1 rs1 => simp [valueLoop, lookupChild]
          · have hnm : (("*" : String) = ":named") = False := by simp
            simp [valueLoop, lookupChild, h0, hnm]
  | cons a s' ih =>
      intro hs seg0
      have ha : headIs '*' a = false := hs a (by simp)
      obtain ⟨ih1, ih2, ih3⟩ :=
        ih (fun x hx => hs x (by simp [hx])) ":named"
      obtain ⟨jh1, jh2, jh3⟩ :=
        ih (fun x hx => hs x (by simp [hx])) a
      have hane : a ≠ "*" := ne_star_of_not_headIs ha
      by_cases hc : headIs ':' a = true
      · refine ⟨?_, ?_, ?_⟩
        · simp only [List.cons_append, Node.Add, hc, if_true, freshNode,
            children_mk, lookupChild, Option.getD_none]
          exact ih1
        · simp only [List.cons_append, Node.Add, hc, if_true, freshNode,
            children_mk, lookupChild, Option.getD_none, insertChild]
          by_cases h0 : (":named" : String) = a
          · simp only [valueLoop, children_mk, lookupChild,
              if_pos h0, if_neg (by simp : ¬(":named" : String) = "*")]
            exact ih2
          · simp only [valueLoop, children_mk, lookupChild,
              if_neg h0, if_neg (by simp : ¬(":named" : String) = "*"),
              if_pos rfl]
            exact ih2
        · intro r hr
          simp only [List.cons_append, Node.Add, hc, if_true, freshNode,
            children_mk, lookupChild, Option.getD_none, insertChild]
          by_cases h0 : (":named" : String) = a
          · simp only [valueLoop, children_mk, lookupChild,
              if_pos h0, if_neg (by simp : ¬(":named" : String) = "*")]
            exact ih3 r hr
          · simp only [valueLoop, children_mk, lookupChild,
              if_neg h0, if_neg (by simp : ¬(":named" : String) = "*"),
              if_pos rfl]
            exact ih3 r hr
      · refine ⟨?_, ?_, ?_⟩
        · simp only [List.cons_append, Node.Add, hc, ha, Bool.false_eq_true,
            if_false, freshNode, children_mk, lookupChild, Option.getD_none]
          exact jh1
        · simp only [List.cons_append, Node.Add, hc, ha, Bool.false_eq_true,
            if_false, freshNode, children_mk, lookupChild, Option.getD_none,
            insertChild]
          simp only [valueLoop, children_mk, lookupChild, if_neg hane,
            eq_self_iff_true, if_true]
          exact jh2
        · intro r hr
          simp only [List.cons_append, Node.Add, hc, ha, Bool.false_eq_true,
            if_false, freshNode, children_mk, lookupChild, Option.getD_none,
            insertChild]
          simp only [valueLoop, children_mk, lookupChild, if_neg hane,
            eq_self_iff_true, if_true]
          exact jh3 r hr

theorem add_notLast_aux {T : Type} [Inhabited T] (pre : List String) :
    ∀ (n : Node T) (seg : String) (post : List String) (v : T),
      (∀ s ∈ pre, headIs '*' s = false) → headIs '*' seg = true → post ≠ [] →
      (Node.Add n (pre ++ seg :: post) v).2 = some AddError.wildcardNotLast := by
  induction pre with
  | nil =>
      intro n seg post v _ hseg hpost
      have hc : headIs ':' seg = false := by
        cases hcc : headIs ':' seg
        · rfl
        · exact absurd hseg (by simp [headIs_colon_star hcc])
      have hpe : post.isEmpty = false := by
        cases post
        · exact absurd rfl hpost
        · rfl
      simp [Node.Add, hc, hseg, hpe]
  | cons p pre' ih =>
      intro n seg post v hpre hseg hpost
      have hp : headIs '*' p = false := hpre p (by simp)
      have hpre' : ∀ s ∈ pre', headIs '*' s = false :=
        fun s hs => hpre s (by simp [hs])
      by_cases hcp : headIs ':' p = true
      · simp only [List.cons_append, Node.Add, hcp, if_true]
        exact ih _ seg post v hpre' hseg hpost
      · simp only [List.cons_append, Node.Add, hcp, hp, Bool.false_eq_true,
          if_false]
        exact ih _ seg post v hpre' hseg hpost

/-! ### The claims -/

/-- **C1** — Precedence of match kinds: with `Add(["GET","foo","*"], 1)`,
`Add(["GET","foo","bar"], 2)`, `Add(["GET","foo"], 3)` registered into a
fresh trie (each registration succeeding),
`Value(["GET","foo","bar"])` returns `(true, 2)` (exact literal beats the
wildcard), `Value(["GET","foo","baz"])` returns `(true, 1)` (wildcard
fallback), and `Value(["GET","foo"])` returns `(true, 3)`. -/
theorem value_wildcard_precedence :
    ((Node.new : Node Int).Add ["GET", "foo", "*"] 1).2 = none ∧
    (exTrie1.Add ["GET", "foo", "bar"] 2).2 = none ∧
    (exTrie2.Add ["GET", "foo"] 3).2 = none ∧
    exTrie.Value ["GET", "foo", "bar"] = (true, 2) ∧
    exTrie.Value ["GET", "foo", "baz"] = (true, 1) ∧
    exTrie.Value ["GET", "foo"] = (true, 3) := by
  refine ⟨by decide, by decide, by decide, by decide, by decide, by decide⟩

/-- **C2** — Deepest-wildcard fallback: whenever the literal/dynamic
descent of `Value` dead-ends, `Value` returns `(true, w)` where `w` is the
value stored at the wildcard child of the deepest node on the walked path
that has a wildcard child, and returns a no-match (with the zero value)
exactly when no node on the walked path has a wildcard child. -/
theorem value_deadEnd_deepest_wildcard {T : Type} [Inhabited T]
    (n : Node T) (segs : List String) (h : deadEnds n segs = true) :
    n.Value segs =
      match deepestWildcard (walkPath n segs) with
      | some w => (true, w.value)
      | none => (false, default) :=
  valueLoop_deadEnd segs n none h

theorem value_deadEnd_deepest_wildcard_witness :
    deadEnds exTrie ["GET", "foo", "baz"] = true ∧
    exTrie.Value ["GET", "foo", "baz"] = (true, 1) :=
  ⟨by decide,
   (value_deadEnd_deepest_wildcard exTrie ["GET", "foo", "baz"]
      (by decide)).trans (by decide)⟩

/-- **C3** — Exact literal round-trip: for every value `v`, after
`Add(["GET","foo","bar","baz"], v)` into a fresh trie,
`Value(["GET","foo","bar","baz"])` returns `(true, v)`, while the strict
prefixes `Value(["GET","foo"])` and `Value(["GET","foo","bar"])` each
return `(false, zero value of V)`. -/
theorem add_value_exact_roundTrip {T : Type} [Inhabited T] (v : T) :
    ((Node.new : Node T).Add ["GET", "foo", "bar", "baz"] v).2 = none ∧
    ((Node.new : Node T).Add ["GET", "foo", "bar", "baz"] v).1.Value
      ["GET", "foo", "bar", "baz"] = (true, v) ∧
    ((Node.new : Node T).Add ["GET", "foo", "bar", "baz"] v).1.Value
      ["GET", "foo"] = (false, default) ∧
    ((Node.new : Node T).Add ["GET", "foo", "bar", "baz"] v).1.Value
      ["GET", "foo", "bar"] = (false, default) :=
  ⟨rfl, rfl, rfl, rfl⟩

theorem add_value_exact_roundTrip_witness :
    ((Node.new : Node Int).Add ["GET", "foo", "bar", "baz"] 9).1.Value
      ["GET", "foo", "bar", "baz"] = (true, 9) :=
  (add_value_exact_roundTrip (9 : Int)).2.1

/-- **C4** — Greedy descent without backtracking: at a node with an exact
literal child for the current segment, `Value` descends that literal child
and its continuation is determined by that child alone (the dynamic
`":named"` slot at that depth is never reconsidered); consequently, with
only `Add(["a","b","c"], 1)` and `Add(["a",":x","d"], 2)` registered,
`Value(["a","b","d"])` reports no match even though the dynamic template
textually covers that path, while each registered route still resolves. -/
theorem value_greedy_no_backtracking :
    (∀ (T : Type) [Inhabited T] (n : Node T) (lw : Option (Node T))
        (seg : String) (rest : List String) (c : Node T),
        lookupChild n.children seg = some c →
        valueLoop lw n (seg :: rest) =
          valueLoop
            (match lookupChild n.children "*" with
             | some w => some w
             | none => lw) c rest) ∧
    ((Node.new : Node Int).Add ["a", "b", "c"] 1).2 = none ∧
    (greedyTrie1.Add ["a", ":x", "d"] 2).2 = none ∧
    greedyTrie.Value ["a", "b", "d"] = (false, 0) ∧
    greedyTrie.Value ["a", "b", "c"] = (true, 1) ∧
    greedyTrie.Value ["a", "x", "d"] = (true, 2) := by
  refine ⟨?_, by decide, by decide, by decide, by decide, by decide⟩
  intro T _ n lw seg rest c h
  simp [valueLoop, h]

/-- **C5** — Wildcard-placement error: for every trie and every segment
sequence holding a wildcard segment at a non-final position, none of whose
earlier segments is itself a wildcard (so the walk reaches it without an
earlier panic), `Add` fails with the configuration error
`"wildcard segments must be the last segment in a path"`. -/
theorem add_wildcard_notLast_error {T : Type} [Inhabited T]
    (n : Node T) (pre : List String) (seg : String) (post : List String)
    (v : T) (hpre : ∀ s ∈ pre, headIs '*' s = false)
    (hseg : headIs '*' seg = true) (hpost : post ≠ []) :
    (Node.Add n (pre ++ seg :: post) v).2 = some AddError.wildcardNotLast ∧
    AddError.message (pre ++ seg :: post) AddError.wildcardNotLast =
      "wildcard segments must be the last segment in a path" :=
  ⟨add_notLast_aux pre n seg post v hpre hseg hpost, rfl⟩

theorem add_wildcard_notLast_error_witness :
    ((Node.new : Node Int).Add ["foo", "*", "bar"] 1).2 =
      some AddError.wildcardNotLast :=
  (add_wildcard_notLast_error Node.new ["foo"] "*" ["bar"] 1 (by decide)
    (by decide) (by decide)).1

/-- **C6** — Duplicate registration is an error, not an overwrite: whenever
the walk of an `Add` call terminates at a node whose `isSet` flag is
already true, `Add` fails with the configuration error `duplicateRoute`
("duplicate route detected") and leaves the tree unchanged, so every later
lookup — in particular one matching that node — still returns the
previously stored value. -/
theorem add_duplicate_error {T : Type} [Inhabited T] (n : Node T)
    (segs : List String) (v : T) (m : Node T)
    (hw : addWalk n segs = some m) (hset : m.isSet = true) :
    Node.Add n segs v = (n, some AddError.duplicateRoute) ∧
    ∀ q : List String, ((Node.Add n segs v).1).Value q = n.Value q := by
  have h := add_duplicate_of_walk segs n m v hw hset
  exact ⟨h, fun q => by rw [h]⟩

theorem add_duplicate_error_witness :
    addWalk dupTrie ["a", "b"] = some (Node.mk "b" (1 : Int) true []) ∧
    (Node.mk "b" (1 : Int) true []).isSet = true ∧
    dupTrie.Add ["a", "b"] 2 = (dupTrie, some AddError.duplicateRoute) ∧
    (dupTrie.Add ["a", "b"] 2).1.Value ["a", "b"] = (true, 1) :=
  ⟨rfl, rfl,
   (add_duplicate_error dupTrie ["a", "b"] 2 (Node.mk "b" (1 : Int) true [])
      rfl rfl).1,
   by decide⟩

/-- **C7** — Value is total and zero-valued on miss: `Value` always returns
a pair (its Lean type is `Bool × T`, with no error component), and on every
trie built from `New` by successful `Add` calls, whenever the boolean is
false the returned value is the zero value of the payload type. -/
theorem value_total_zero_on_miss {T : Type} [Inhabited T] (n : Node T)
    (hB : Built n) (segs : List String) (hf : (n.Value segs).1 = false) :
    (n.Value segs).2 = default :=
  clean_valueLoop segs n none (built_clean hB) hf

theorem value_total_zero_on_miss_witness :
    ((missTrie.Value ["b"]).1 = false) ∧ (missTrie.Value ["b"]).2 = default :=
  ⟨by decide,
   value_total_zero_on_miss missTrie
     (Built.add Node.new ["a"] 1 Built.new (by decide)) ["b"] (by decide)⟩

/-- **C8** — A wildcard matches only a non-empty remainder: if the only
registration in a fresh trie is `Add(s ++ ["*"], v)` (with `s` free of
wildcard segments, so the registration succeeds), then `Value(s)` reports
no match — the wildcard at the node reached by `s` is never consulted when
zero input segments remain — while `Value(s ++ r)` returns `(true, v)` for
every non-empty remainder `r` (in particular for every remainder that does
not descend a registered child). -/
theorem wildcard_nonempty_remainder {T : Type} [Inhabited T]
    (s : List String) (v : T) (hs : ∀ x ∈ s, headIs '*' x = false) :
    (Node.Add (Node.new : Node T) (s ++ ["*"]) v).2 = none ∧
    (Node.Add (Node.new : Node T) (s ++ ["*"]) v).1.Value s =
      (false, default) ∧
    ∀ r : List String, r ≠ [] →
      (Node.Add (Node.new : Node T) (s ++ ["*"]) v).1.Value (s ++ r) =
        (true, v) :=
  add_star_tail v s hs ""

theorem wildcard_nonempty_remainder_witness :
    (Node.Add (Node.new : Node Int) (["GET", "docs"] ++ ["*"]) 42).2 = none ∧
    (Node.Add (Node.new : Node Int) (["GET", "docs"] ++ ["*"]) 42).1.Value
      ["GET", "docs"] = (false, default) ∧
    (Node.Add (Node.new : Node Int) (["GET", "docs"] ++ ["*"]) 42).1.Value
      (["GET", "docs"] ++ ["x", "y"]) = (true, 42) :=
  ⟨(wildcard_nonempty_remainder ["GET", "docs"] 42 (by decide)).1,
   (wildcard_nonempty_remainder ["GET", "docs"] 42 (by decide)).2.1,
   (wildcard_nonempty_remainder ["GET", "docs"] 42 (by decide)).2.2
     ["x", "y"] (by decide)⟩

/-- **C9**, counterexample — the claim says a segment receives wildcard
handling only when it is exactly `"*"`, and that a segment such as
`"*foo"` creates a literal child keyed `"*foo"`. In fact `Add` tests only
the first character: after `Add(["*foo"], 1)` into a fresh trie there is no
child keyed `"*foo"`, there is a wildcard child keyed `"*"` holding the
value, and `Value(["bar"])` matches through that wildcard. -/
theorem wildcard_marker_counterexample :
    lookupChild starFooTrie.children "*foo" = none ∧
    lookupChild starFooTrie.children "*" =
      some (Node.mk "*" (1 : Int) true []) ∧
    starFooTrie.Value ["bar"] = (true, 1) ∧
    ((Node.new : Node Int).Add ["*foo"] 1).2 = none :=
  ⟨rfl, rfl, by decide, by decide⟩

/-- **C9**, amended — during `Add`, a segment receives wildcard handling
exactly when it starts with the wildcard marker `*` (not only when it is
exactly `"*"`); every segment that neither starts with `:` nor with `*`
(including the empty string) creates or reuses a literal child keyed by
the exact segment text. -/
theorem wildcard_marker_amended :
    (∀ (T : Type) [Inhabited T] (n : Node T) (seg : String)
        (rest : List String) (v : T),
        headIs ':' seg = false → headIs '*' seg = false →
        lookupChild (Node.Add n (seg :: rest) v).1.children seg =
          some (Node.Add ((lookupChild n.children seg).getD (freshNode seg))
            rest v).1) ∧
    (∀ (T : Type) [Inhabited T] (n : Node T) (seg : String) (v : T),
        headIs ':' seg = false → headIs '*' seg = true →
        lookupChild n.children "*" = none →
        (Node.Add n [seg] v).1.children =
          insertChild n.children "*" (Node.mk "*" v true []) ∧
        (Node.Add n [seg] v).2 = none) := by
  constructor
  · intro T _ n seg rest v hc hs
    simp only [Node.Add, hc, hs, Bool.false_eq_true, if_false, children_mk]
    exact lookupChild_insertChild_self _ _ _
  · intro T _ n seg v hc hs hw
    refine ⟨?_, ?_⟩ <;>
      simp [Node.Add, hc, hs, hw]

/-- **C10** — A failed `Add` is not atomic with respect to lookups: after
`Add(["a",":x","b"], 5)`, the call `Add(["a","q","*","z"], 7)` fails with
the wildcard-placement error, yet it leaves a fresh literal child `"q"`
under `"a"`, and `Value(["a","q","b"])`, which returned `(true, 5)` before
the failed call, returns `(false, 0)` afterwards. -/
theorem add_failure_not_atomic :
    ((Node.new : Node Int).Add ["a", ":x", "b"] 5).2 = none ∧
    atomTrie.Value ["a", "q", "b"] = (true, 5) ∧
    (atomTrie.Add ["a", "q", "*", "z"] 7).2 = some AddError.wildcardNotLast ∧
    ((lookupChild atomTrieAfter.children "a").bind
      fun na => lookupChild na.children "q") = some (freshNode "q") ∧
    atomTrieAfter.Value ["a", "q", "b"] = (false, 0) :=
  ⟨by decide, by decide, by decide, rfl, by decide⟩

end Radical
